import Mathlib

/-!
Shallow embedding of the alert-processing engine (`main.py`): the data model
(`Alert`, `AlertGroup`, the severity catalog), the filter pipeline, the
grouping pass, the priority scorer and the summary reporter, together with
theorems settling the specification claims about them.

Conventions of the embedding:
* Python floats become `ℚ` (exact arithmetic on the same formulas).
* Absolute instants (Python `datetime`) become `ℚ`, measured in minutes, so
  that `timedelta(minutes=m)` is the rational `m`.
* `datetime.fromisoformat` is an external library routine; it is modelled as
  an explicit parameter `p : String → Option ℚ` (`none` = `ValueError`,
  i.e. the spec's ParseError). `datetime.now(timezone.utc)` is likewise an
  explicit parameter `now : ℚ` captured once per filter invocation, as in
  the source.
* Python `dict` (insertion ordered) becomes an association list whose update
  bumps the first matching key in place and appends unknown keys at the end.
* Functions that may raise return `Option` (`none` = the raised error).
-/

namespace AlertSystem

/-- The `SeverityLevel` catalog: label and weight of each member, in
declaration order (`CRITICAL`, `WARNING`, `INFO`). -/
def severityLevels : List (String × Nat) := [("critical", 10), ("warning", 5), ("info", 1)]

/-- The `Alert` dataclass of `main.py`. -/
structure Alert where
  id : String
  timestamp : String
  service : String
  component : String
  severity : String
  metric : String
  value : ℚ
  threshold : ℚ
  description : String
deriving DecidableEq

/-- The grouping key `(alert.service, alert.component)`. -/
def Alert.akey (a : Alert) : String × String := (a.service, a.component)

/-- Embeds `Alert.get_datetime`: replace `Z` by `+00:00`, then parse with the
external ISO-8601 parser `p` (`datetime.fromisoformat`). -/
def get_datetime (p : String → Option ℚ) (a : Alert) : Option ℚ :=
  p (String.replace a.timestamp "Z" "+00:00")

/-- Embeds `Alert.get_deviation_percentage`: zero when the threshold is zero,
otherwise the signed relative deviation in percent. -/
def get_deviation_percentage (a : Alert) : ℚ :=
  if a.threshold = 0 then 0 else ((a.value - a.threshold) / a.threshold) * 100

/-- The `AlertGroup` dataclass: key fields, the grouped alerts, the per-raw
severity tallies (`severity_counts` dict as an ordered association list) and
the cached `total_alerts`. -/
structure AlertGroup where
  service : String
  component : String
  alerts : List Alert
  severity_counts : List (String × Nat)
  total_alerts : Nat
deriving DecidableEq

/-- Embeds `counts[s] = counts.get(s, 0) + 1` on an insertion-ordered dict: bump the
first entry with key `s`, or append `(s, 1)` when absent. -/
def incr : List (String × Nat) → String → List (String × Nat)
  | [], s => [(s, 1)]
  | (k, v) :: rest, s => if k = s then (k, v + 1) :: rest else (k, v) :: incr rest s

/-- Embeds `counts.get(s, 0)` on the association list. -/
def lookupD : List (String × Nat) → String → Nat
  | [], _ => 0
  | (k, v) :: rest, s => if k = s then v else lookupD rest s

/-- Embeds `AlertGroup.add_alert`: append the alert, tally its raw severity string,
recompute `total_alerts` as the length of the alert list. -/
def add_alert (g : AlertGroup) (a : Alert) : AlertGroup :=
  let newAlerts := g.alerts ++ [a]
  { g with
      alerts := newAlerts
      severity_counts := incr g.severity_counts a.severity
      total_alerts := newAlerts.length }

/-- One step of `group_alerts`: the `defaultdict` access at the alert's key,
creating the group (with `service`/`component` taken from this first alert)
when absent, followed by `add_alert`. The dict is an insertion-ordered
association list keyed by `(service, component)`. -/
def updateGroups : List ((String × String) × AlertGroup) → Alert → List ((String × String) × AlertGroup)
  | [], a => [(a.akey, add_alert ⟨a.service, a.component, [], [], 0⟩ a)]
  | (k, g) :: rest, a =>
    if k = a.akey then (k, add_alert g a) :: rest
    else (k, g) :: updateGroups rest a

/-- Embeds `AlertProcessor.group_alerts` on an explicit alert list: one pass over the
input building the keyed dict, then `list(groups_dict.values())`. -/
def group_alerts (alerts : List Alert) : List AlertGroup :=
  (alerts.foldl updateGroups []).map Prod.snd

/-- The recency pass of `filter_alerts`: keep alerts whose parsed timestamp is
`≥ cutoff`; a timestamp that fails to parse raises (result `none`). -/
def timePass (p : String → Option ℚ) (cutoff : ℚ) : List Alert → Option (List Alert)
  | [] => some []
  | a :: rest =>
    match get_datetime p a with
    | none => none
    | some t =>
      match timePass p cutoff rest with
      | none => none
      | some l => some (if cutoff ≤ t then a :: l else l)

/-- Embeds `AlertProcessor.filter_alerts`: the three sequential passes. A criterion
is applied only when truthy (`None` and `""`/`0` are both skipped, as in
Python's `if severity:` / `if service:` / `if time_window_minutes:`); the
severity and service matches lowercase both sides; the cutoff is
`now - time_window_minutes`. -/
def filter_alerts (p : String → Option ℚ) (now : ℚ) (alerts : List Alert)
    (severity service : Option String) (time_window_minutes : Option Int) :
    Option (List Alert) :=
  let f1 := match severity with
    | none => alerts
    | some s =>
      if s = "" then alerts
      else alerts.filter (fun a => a.severity.toLower == s.toLower)
  let f2 := match service with
    | none => f1
    | some s =>
      if s = "" then f1
      else f1.filter (fun a => a.service.toLower == s.toLower)
  match time_window_minutes with
  | none => some f2
  | some m => if m = 0 then some f2 else timePass p (now - (m : ℚ)) f2

/-- Embeds `next((level for level in SeverityLevel if level.label == alert.severity), None)`. -/
def severityLookup (s : String) : Option (String × Nat) :=
  severityLevels.find? (fun lv => lv.1 == s)

/-- The contribution of one alert to the severity score: the weight of the
matching catalog level, or 0 when `next(..., None)` found no level. -/
def severityWeightOf (a : Alert) : Nat :=
  match severityLookup a.severity with
  | some lv => lv.2
  | none => 0

/-- Embeds `AlertProcessor.calculate_incident_priority`: 0 on empty input, otherwise
the weighted combination of total severity weight, mean absolute deviation
and distinct `(service, component)` count. -/
def calculate_incident_priority (alerts : List Alert) : ℚ :=
  if alerts.isEmpty then 0
  else
    let severity_score : Nat := alerts.foldl (fun acc a => acc + severityWeightOf a) 0
    let deviations : List ℚ := alerts.map (fun a => |get_deviation_percentage a|)
    let avg_deviation : ℚ := if deviations.isEmpty then 0 else deviations.sum / (deviations.length : ℚ)
    let affected_components : Nat := ((alerts.map Alert.akey).dedup).length
    (severity_score : ℚ) * 0.5 + avg_deviation * 0.3 + (affected_components : ℚ) * 0.2

/-- The tally dict built by the summary loops (`defaultdict(int)` bumped per
alert): fold of `incr` over the selected field. -/
def tally (f : Alert → String) (alerts : List Alert) : List (String × Nat) :=
  alerts.foldl (fun c a => incr c (f a)) []

/-- Parse every alert's timestamp in order; the first failure raises. -/
def parseAll (p : String → Option ℚ) : List Alert → Option (List ℚ)
  | [] => some []
  | a :: rest =>
    match get_datetime p a with
    | none => none
    | some t =>
      match parseAll p rest with
      | none => none
      | some ts => some (t :: ts)

/-- Minimum over a nonempty list of instants (the `[]` case is unreachable
behind the emptiness guard of `get_alert_summary`). -/
def listMin : List ℚ → ℚ
  | [] => 0
  | t :: ts => ts.foldl min t

/-- Maximum over a nonempty list of instants. -/
def listMax : List ℚ → ℚ
  | [] => 0
  | t :: ts => ts.foldl max t

/-- The summary record returned by `get_alert_summary`; absent fields of the
empty-input sentinel are `none`. -/
structure Summary where
  total_alerts : Nat
  severity_distribution : Option (List (String × Nat))
  service_distribution : Option (List (String × Nat))
  component_distribution : Option (List (String × Nat))
  time_range : Option (ℚ × ℚ)
deriving DecidableEq

/-- Embeds `AlertProcessor.get_alert_summary`: the `{"total_alerts": 0}` sentinel on
empty input, otherwise the three distributions plus the time range; a
timestamp that fails to parse raises (result `none`). -/
def get_alert_summary (p : String → Option ℚ) (alerts : List Alert) : Option Summary :=
  if alerts.isEmpty then some ⟨0, none, none, none, none⟩
  else
    match parseAll p alerts with
    | none => none
    | some ts => some
        ⟨alerts.length,
         some (tally Alert.severity alerts),
         some (tally Alert.service alerts),
         some (tally Alert.component alerts),
         some (listMin ts, listMax ts)⟩

/-! ### Specification-side definitions (from the claims' wording) -/

/-- Spec wording: the catalog weight of the `SeverityLevel` whose label equals
the severity string under case-sensitive exact match; 0 when no label
matches. -/
def weightOfLabel (s : String) : Nat :=
  if s = "critical" then 10 else if s = "warning" then 5 else if s = "info" then 1 else 0

/-- Spec wording: `severityScore` = sum over alerts of the catalog weight of
their severity. -/
def severityScoreSpec (alerts : List Alert) : Nat :=
  (alerts.map (fun a => weightOfLabel a.severity)).sum

/-- Spec wording: `avgDeviation` = mean of `abs(deviationPercent())`. -/
def avgDeviationSpec (alerts : List Alert) : ℚ :=
  (alerts.map (fun a => |get_deviation_percentage a|)).sum / (alerts.length : ℚ)

/-- Spec wording: `affectedComponents` = number of distinct
`(service, component)` pairs. -/
def affectedComponentsSpec (alerts : List Alert) : Nat :=
  ((alerts.map Alert.akey).dedup).length

/-- Spec wording of the score: 0 on empty input, otherwise
`0.5*severityScore + 0.3*avgDeviation + 0.2*affectedComponents`. -/
def scoreSpec (alerts : List Alert) : ℚ :=
  if alerts.isEmpty then 0
  else (0.5 : ℚ) * (severityScoreSpec alerts : ℚ) + (0.3 : ℚ) * avgDeviationSpec alerts
    + (0.2 : ℚ) * (affectedComponentsSpec alerts : ℚ)

/-- First-appearance deduplication: keep each element at the position of its
first occurrence (the order in which the grouping dict meets new keys). -/
def dedupFirst {α : Type} [DecidableEq α] (l : List α) : List α :=
  l.foldl (fun acc x => if x ∈ acc then acc else acc ++ [x]) []

/-- Spec wording of the severity criterion: case-insensitive exact match when
supplied, no constraint when omitted. -/
def sevOK (severity : Option String) (a : Alert) : Bool :=
  match severity with
  | none => true
  | some s => a.severity.toLower == s.toLower

/-- Spec wording of the service criterion. -/
def servOK (service : Option String) (a : Alert) : Bool :=
  match service with
  | none => true
  | some s => a.service.toLower == s.toLower

/-- The recency test on one alert: `parsedTime() ≥ cutoff` (false on a
timestamp that does not parse). -/
def timeOKAt (p : String → Option ℚ) (cutoff : ℚ) (a : Alert) : Bool :=
  match get_datetime p a with
  | none => false
  | some t => decide (cutoff ≤ t)

/-- Spec wording of the recency criterion: `parsedTime() ≥ now - window` when
supplied, no constraint when omitted. -/
def winOK (p : String → Option ℚ) (now : ℚ) (win : Option Int) (a : Alert) : Bool :=
  match win with
  | none => true
  | some m => timeOKAt p (now - (m : ℚ)) a

/-- The `AlertGroup` bookkeeping invariant of the spec: `totalAlerts` equals
the length of the alert list, the severity tallies sum to `totalAlerts`, and
each raw severity string is tallied exactly as often as it occurs among the
group's alerts. -/
def countsInv (g : AlertGroup) : Prop :=
  g.total_alerts = g.alerts.length
  ∧ (g.severity_counts.map Prod.snd).sum = g.total_alerts
  ∧ ∀ s : String, lookupD g.severity_counts s = (g.alerts.filter (fun a => a.severity == s)).length

/-- A sample alert for concrete witnesses. -/
def mkAlert (i ts svc comp sev : String) (v t : ℚ) : Alert :=
  ⟨i, ts, svc, comp, sev, "metric", v, t, "desc"⟩

/-! ### Helper lemmas -/

lemma severityWeightOf_eq (a : Alert) : severityWeightOf a = weightOfLabel a.severity := by
  unfold severityWeightOf severityLookup severityLevels weightOfLabel
  by_cases h1 : a.severity = "critical"
  · simp [List.find?, h1]
  · have e1 : ("critical" == a.severity) = false :=
      beq_eq_false_iff_ne.mpr (fun hh => h1 hh.symm)
    by_cases h2 : a.severity = "warning"
    · simp [List.find?, e1, h2]
    · have e2 : ("warning" == a.severity) = false :=
        beq_eq_false_iff_ne.mpr (fun hh => h2 hh.symm)
      by_cases h3 : a.severity = "info"
      · simp [List.find?, e1, e2, h3]
      · have e3 : ("info" == a.severity) = false :=
          beq_eq_false_iff_ne.mpr (fun hh => h3 hh.symm)
        simp [List.find?, e1, e2, e3, h1, h2, h3]

lemma foldl_add_eq_sum (f : Alert → Nat) (l : List Alert) :
    ∀ n : Nat, l.foldl (fun acc a => acc + f a) n = n + (l.map f).sum := by
  induction l with
  | nil => simp
  | cons a t ih =>
    intro n
    simp only [List.foldl_cons, List.map_cons, List.sum_cons, ih (n + f a)]
    omega

section DedupFirst

variable {α : Type} [DecidableEq α]

lemma mem_foldl_dedupStep (l : List α) :
    ∀ (acc : List α) (x : α),
      x ∈ l.foldl (fun acc y => if y ∈ acc then acc else acc ++ [y]) acc
        ↔ x ∈ acc ∨ x ∈ l := by
  induction l with
  | nil => simp
  | cons y t ih =>
    intro acc x
    simp only [List.foldl_cons]
    by_cases h : y ∈ acc
    · rw [if_pos h, ih]
      simp only [List.mem_cons]
      constructor
      · rintro (hx | hx)
        · exact Or.inl hx
        · exact Or.inr (Or.inr hx)
      · rintro (hx | rfl | hx)
        · exact Or.inl hx
        · exact Or.inl h
        · exact Or.inr hx
    · rw [if_neg h, ih]
      simp only [List.mem_append, List.mem_singleton, List.mem_cons]
      tauto

lemma mem_dedupFirst (l : List α) (x : α) : x ∈ dedupFirst l ↔ x ∈ l := by
  unfold dedupFirst
  rw [mem_foldl_dedupStep]
  simp

lemma nodup_foldl_dedupStep (l : List α) :
    ∀ acc : List α, acc.Nodup →
      (l.foldl (fun acc y => if y ∈ acc then acc else acc ++ [y]) acc).Nodup := by
  induction l with
  | nil => intro acc h; simpa using h
  | cons y t ih =>
    intro acc hacc
    simp only [List.foldl_cons]
    by_cases h : y ∈ acc
    · rw [if_pos h]; exact ih acc hacc
    · rw [if_neg h]
      refine ih _ (List.Nodup.append hacc (List.nodup_singleton y) ?_)
      intro a ha hay
      rw [List.mem_singleton] at hay
      exact h (hay ▸ ha)

lemma nodup_dedupFirst (l : List α) : (dedupFirst l).Nodup :=
  nodup_foldl_dedupStep l [] List.nodup_nil

lemma dedupFirst_append_singleton (l : List α) (x : α) :
    dedupFirst (l ++ [x])
      = if x ∈ dedupFirst l then dedupFirst l else dedupFirst l ++ [x] := by
  unfold dedupFirst
  rw [List.foldl_append]
  rfl

end DedupFirst

/-- The group that `group_alerts` ends up building for a key `k`: exactly the
alerts of the input with that key, tallied by raw severity. -/
def groupFor (alerts : List Alert) (k : String × String) : AlertGroup :=
  let as := alerts.filter (fun a => a.akey == k)
  ⟨k.1, k.2, as, tally Alert.severity as, as.length⟩

/-- The grouping dict (as an ordered association list) after a full pass over
`alerts`. -/
def stateFor (alerts : List Alert) : List ((String × String) × AlertGroup) :=
  (dedupFirst (alerts.map Alert.akey)).map (fun k => (k, groupFor alerts k))

lemma tally_append (f : Alert → String) (l : List Alert) (a : Alert) :
    tally f (l ++ [a]) = incr (tally f l) (f a) := by
  simp [tally, List.foldl_append]

lemma groupFor_append (pre : List Alert) (a : Alert) (k : String × String) :
    groupFor (pre ++ [a]) k
      = if a.akey = k then add_alert (groupFor pre k) a else groupFor pre k := by
  unfold groupFor
  by_cases h : a.akey = k
  · have hb : (a.akey == k) = true := beq_iff_eq.mpr h
    rw [if_pos h]
    simp only [List.filter_append, List.filter_cons, hb, List.filter_nil]
    simp [add_alert, tally_append]
  · have hb : (a.akey == k) = false := beq_eq_false_iff_ne.mpr h
    rw [if_neg h]
    simp only [List.filter_append, List.filter_cons, hb, List.filter_nil]
    simp

lemma updateGroups_not_mem (ks : List (String × String))
    (f : String × String → AlertGroup) (a : Alert) (h : a.akey ∉ ks) :
    updateGroups (ks.map (fun k => (k, f k))) a
      = ks.map (fun k => (k, f k))
          ++ [(a.akey, add_alert ⟨a.service, a.component, [], [], 0⟩ a)] := by
  induction ks with
  | nil => rfl
  | cons k t ih =>
    have hk : k ≠ a.akey := fun e => h (e ▸ List.mem_cons_self k t)
    have ht : a.akey ∉ t := fun e => h (List.mem_cons_of_mem k e)
    simp only [List.map_cons, updateGroups, if_neg hk, ih ht, List.cons_append]

lemma updateGroups_mem (ks : List (String × String))
    (f : String × String → AlertGroup) (a : Alert) (hnd : ks.Nodup) (h : a.akey ∈ ks) :
    updateGroups (ks.map (fun k => (k, f k))) a
      = ks.map (fun k => (k, if k = a.akey then add_alert (f k) a else f k)) := by
  induction ks with
  | nil => cases h
  | cons k t ih =>
    rcases List.mem_cons.mp h with e | ht
    · have hk : k = a.akey := e.symm
      have hnt : a.akey ∉ t := fun e2 => (List.nodup_cons.mp hnd).1 (hk ▸ e2)
      simp only [List.map_cons, updateGroups, if_pos hk]
      congr 1
      apply List.map_congr_left
      intro k' hk'
      rw [if_neg (fun e2 : k' = a.akey => hnt (e2 ▸ hk'))]
    · by_cases hk : k = a.akey
      · have hnt : a.akey ∉ t := fun e2 => (List.nodup_cons.mp hnd).1 (hk ▸ e2)
        exact absurd ht hnt
      · simp only [List.map_cons, updateGroups, if_neg hk,
          ih (List.nodup_cons.mp hnd).2 ht]

lemma stateFor_append (pre : List Alert) (a : Alert) :
    stateFor (pre ++ [a]) = updateGroups (stateFor pre) a := by
  unfold stateFor
  rw [List.map_append, List.map_singleton, dedupFirst_append_singleton]
  by_cases h : a.akey ∈ dedupFirst (pre.map Alert.akey)
  · rw [if_pos h, updateGroups_mem _ _ _ (nodup_dedupFirst _) h]
    apply List.map_congr_left
    intro k hk
    rw [groupFor_append]
    by_cases hk2 : a.akey = k
    · rw [if_pos hk2, if_pos hk2.symm]
    · rw [if_neg hk2, if_neg (fun e : k = a.akey => hk2 e.symm)]
  · rw [if_neg h, updateGroups_not_mem _ _ _ h, List.map_append]
    congr 1
    · apply List.map_congr_left
      intro k hk
      rw [groupFor_append, if_neg (fun e : a.akey = k => h (e ▸ hk))]
    · have hnp : a.akey ∉ pre.map Alert.akey := fun e => h ((mem_dedupFirst _ _).mpr e)
      have hfil : pre.filter (fun x => x.akey == a.akey) = [] := by
        refine List.filter_eq_nil_iff.mpr (fun b hb hbk => ?_)
        exact hnp (beq_iff_eq.mp hbk ▸ List.mem_map_of_mem Alert.akey hb)
      rw [List.map_singleton, groupFor_append, if_pos rfl]
      have hpre : groupFor pre a.akey = ⟨a.service, a.component, [], [], 0⟩ := by
        unfold groupFor
        rw [hfil]
        rfl
      rw [hpre]

lemma foldl_updateGroups (l : List Alert) :
    ∀ pre : List Alert, l.foldl updateGroups (stateFor pre) = stateFor (pre ++ l) := by
  induction l with
  | nil => intro pre; simp
  | cons a t ih =>
    intro pre
    rw [List.foldl_cons, ← stateFor_append, ih (pre ++ [a]), List.append_assoc,
      List.singleton_append]

/-- Closed form of the grouping pass: one group per distinct key in
first-appearance order, each holding exactly the input alerts with that key. -/
lemma group_alerts_closed (alerts : List Alert) :
    group_alerts alerts = (dedupFirst (alerts.map Alert.akey)).map (groupFor alerts) := by
  unfold group_alerts
  rw [show ([] : List ((String × String) × AlertGroup)) = stateFor [] from rfl,
    foldl_updateGroups alerts [], List.nil_append]
  unfold stateFor
  rw [List.map_map]
  rfl

lemma group_alerts_keys (alerts : List Alert) :
    (group_alerts alerts).map (fun g => (g.service, g.component))
      = dedupFirst (alerts.map Alert.akey) := by
  rw [group_alerts_closed, List.map_map]
  have : ((fun g : AlertGroup => (g.service, g.component)) ∘ groupFor alerts)
      = fun k : String × String => (k.1, k.2) := rfl
  rw [this]
  simp

lemma sum_map_ite_add (ks : List (String × String)) (c : String × String → Nat)
    (x : String × String) (hnd : ks.Nodup) (hx : x ∈ ks) :
    (ks.map (fun k => (if x = k then 1 else 0) + c k)).sum = 1 + (ks.map c).sum := by
  induction ks with
  | nil => cases hx
  | cons k t ih =>
    rcases List.mem_cons.mp hx with e | hx'
    · have hnt : x ∉ t := fun e2 => (List.nodup_cons.mp hnd).1 (e ▸ e2)
      simp only [List.map_cons, List.sum_cons, if_pos e]
      rw [List.map_congr_left
        (fun k' hk' => by rw [if_neg (fun e2 : x = k' => hnt (e2 ▸ hk')), Nat.zero_add])]
      omega
    · have hk : x ≠ k := fun e => (List.nodup_cons.mp hnd).1 (e ▸ hx')
      simp only [List.map_cons, List.sum_cons, if_neg hk,
        ih (List.nodup_cons.mp hnd).2 hx']
      omega

lemma sum_counts (ks : List (String × String)) (l : List Alert) (hnd : ks.Nodup)
    (hcov : ∀ a ∈ l, a.akey ∈ ks) :
    (ks.map (fun k => (l.filter (fun a => a.akey == k)).length)).sum = l.length := by
  induction l with
  | nil => simp
  | cons a t ih =>
    have hcov' : ∀ b ∈ t, b.akey ∈ ks := fun b hb => hcov b (List.mem_cons_of_mem a hb)
    have ha : a.akey ∈ ks := hcov a (List.mem_cons_self a t)
    have hsplit : ∀ k : String × String,
        ((a :: t).filter (fun x => x.akey == k)).length
          = (if a.akey = k then 1 else 0) + (t.filter (fun x => x.akey == k)).length := by
      intro k
      by_cases h : a.akey = k
      · rw [List.filter_cons, if_pos (beq_iff_eq.mpr h), if_pos h, List.length_cons]
        omega
      · rw [List.filter_cons, if_neg (by simp [beq_eq_false_iff_ne.mpr h]), if_neg h,
          Nat.zero_add]
    rw [List.map_congr_left (fun k _ => hsplit k), sum_map_ite_add ks _ a.akey hnd ha,
      ih hcov', List.length_cons]
    omega

lemma sum_incr (c : List (String × Nat)) (s : String) :
    ((incr c s).map Prod.snd).sum = (c.map Prod.snd).sum + 1 := by
  induction c with
  | nil => simp [incr]
  | cons kv t ih =>
    obtain ⟨k, v⟩ := kv
    by_cases h : k = s
    · simp only [incr, if_pos h, List.map_cons, List.sum_cons]
      omega
    · simp only [incr, if_neg h, List.map_cons, List.sum_cons, ih]
      omega

lemma lookupD_incr (c : List (String × Nat)) (s t : String) :
    lookupD (incr c s) t = lookupD c t + (if t = s then 1 else 0) := by
  induction c with
  | nil =>
    by_cases h : t = s
    · simp [incr, lookupD, h]
    · rw [show incr [] s = [(s, 1)] from rfl]
      simp only [lookupD, if_neg (fun e : s = t => h e.symm), if_neg h]
  | cons kv rest ih =>
    obtain ⟨k, v⟩ := kv
    by_cases hks : k = s
    · subst hks
      simp only [incr, if_pos rfl]
      by_cases h2 : k = t
      · simp only [lookupD, if_pos h2, if_pos h2.symm]
      · simp only [lookupD, if_neg h2, if_neg (fun e : t = k => h2 e.symm), Nat.add_zero]
    · simp only [incr, if_neg hks]
      by_cases h2 : k = t
      · have : ¬ t = s := fun e => hks (h2.trans e)
        simp only [lookupD, if_pos h2, if_neg this, Nat.add_zero]
      · simp only [lookupD, if_neg h2, ih]

lemma tally_sum_from (f : Alert → String) (l : List Alert) :
    ∀ c : List (String × Nat),
      ((l.foldl (fun c a => incr c (f a)) c).map Prod.snd).sum
        = (c.map Prod.snd).sum + l.length := by
  induction l with
  | nil => simp
  | cons a t ih =>
    intro c
    simp only [List.foldl_cons, ih (incr c (f a)), sum_incr, List.length_cons]
    omega

lemma tally_lookup_from (f : Alert → String) (l : List Alert) :
    ∀ (c : List (String × Nat)) (s : String),
      lookupD (l.foldl (fun c a => incr c (f a)) c) s
        = lookupD c s + (l.filter (fun a => f a == s)).length := by
  induction l with
  | nil => simp
  | cons a t ih =>
    intro c s
    simp only [List.foldl_cons, ih (incr c (f a)), lookupD_incr]
    by_cases h : f a = s
    · rw [List.filter_cons, if_pos (beq_iff_eq.mpr h), if_pos h.symm, List.length_cons]
      omega
    · rw [List.filter_cons, if_neg (fun hb => h (beq_iff_eq.mp hb)),
        if_neg (fun e : s = f a => h e.symm)]
      omega

lemma countsInv_add_alert (g : AlertGroup) (a : Alert) (h : countsInv g) :
    countsInv (add_alert g a) := by
  obtain ⟨h1, h2, h3⟩ := h
  refine ⟨rfl, ?_, ?_⟩
  · show ((incr g.severity_counts a.severity).map Prod.snd).sum = (g.alerts ++ [a]).length
    rw [sum_incr, h2, h1, List.length_append, List.length_singleton]
  · intro s
    show lookupD (incr g.severity_counts a.severity) s
      = ((g.alerts ++ [a]).filter (fun x => x.severity == s)).length
    rw [lookupD_incr, h3 s, List.filter_append, List.length_append]
    by_cases h : a.severity = s
    · rw [List.filter_cons, if_pos (beq_iff_eq.mpr h), if_pos h.symm]
      rfl
    · rw [List.filter_cons, if_neg (fun hb => h (beq_iff_eq.mp hb)),
        if_neg (fun e : s = a.severity => h e.symm)]
      rfl

lemma countsInv_groupFor (alerts : List Alert) (k : String × String) :
    countsInv (groupFor alerts k) := by
  unfold groupFor countsInv
  refine ⟨rfl, ?_, ?_⟩
  · show ((tally Alert.severity _).map Prod.snd).sum = _
    unfold tally
    rw [tally_sum_from]
    simp
  · intro s
    show lookupD (tally Alert.severity _) s = _
    unfold tally
    rw [tally_lookup_from]
    simp [lookupD]

lemma filter_three (l : List Alert) (A B C : Alert → Bool) :
    ((l.filter A).filter B).filter C = l.filter (fun a => A a && (B a && C a)) := by
  rw [List.filter_filter, List.filter_filter]
  exact List.filter_congr (fun a _ => by cases A a <;> cases B a <;> cases C a <;> rfl)

lemma filter_two (l : List Alert) (A B : Alert → Bool) :
    (l.filter A).filter B = l.filter (fun a => A a && B a) := by
  rw [List.filter_filter]
  exact List.filter_congr (fun a _ => Bool.and_comm (B a) (A a))

lemma timePass_eq_filter (p : String → Option ℚ) (cutoff : ℚ) (l : List Alert)
    (hp : ∀ a ∈ l, (get_datetime p a).isSome) :
    timePass p cutoff l = some (l.filter (timeOKAt p cutoff)) := by
  induction l with
  | nil => rfl
  | cons a t ih =>
    obtain ⟨x, hx⟩ := Option.isSome_iff_exists.mp (hp a (List.mem_cons_self a t))
    have ht : ∀ b ∈ t, (get_datetime p b).isSome :=
      fun b hb => hp b (List.mem_cons_of_mem a hb)
    by_cases hcx : cutoff ≤ x
    · simp [timePass, hx, ih ht, List.filter_cons, timeOKAt, hcx]
    · simp [timePass, hx, ih ht, List.filter_cons, timeOKAt, hcx]

lemma timePass_none (p : String → Option ℚ) (cutoff : ℚ) (l : List Alert)
    (h : ∃ a ∈ l, get_datetime p a = none) :
    timePass p cutoff l = none := by
  induction l with
  | nil => obtain ⟨a, ha, _⟩ := h; cases ha
  | cons a t ih =>
    obtain ⟨b, hb, hbn⟩ := h
    rcases List.mem_cons.mp hb with rfl | hbt
    · simp [timePass, hbn]
    · cases hda : get_datetime p a with
      | none => simp [timePass, hda]
      | some x => simp [timePass, hda, ih ⟨b, hbt, hbn⟩]

lemma parseAll_none (p : String → Option ℚ) (l : List Alert)
    (h : ∃ a ∈ l, get_datetime p a = none) :
    parseAll p l = none := by
  induction l with
  | nil => obtain ⟨a, ha, _⟩ := h; cases ha
  | cons a t ih =>
    obtain ⟨b, hb, hbn⟩ := h
    rcases List.mem_cons.mp hb with rfl | hbt
    · simp [parseAll, hbn]
    · cases hda : get_datetime p a with
      | none => simp [parseAll, hda]
      | some x => simp [parseAll, hda, ih ⟨b, hbt, hbn⟩]

lemma parseAll_isSome (p : String → Option ℚ) (l : List Alert)
    (hp : ∀ a ∈ l, (get_datetime p a).isSome) :
    (parseAll p l).isSome := by
  induction l with
  | nil => rfl
  | cons a t ih =>
    obtain ⟨x, hx⟩ := Option.isSome_iff_exists.mp (hp a (List.mem_cons_self a t))
    have ht := ih (fun b hb => hp b (List.mem_cons_of_mem a hb))
    obtain ⟨ts, hts⟩ := Option.isSome_iff_exists.mp ht
    simp [parseAll, hx, hts]

/-! ### Claim theorems -/

/-- C7: `deviationPercent()` is exactly 0 when the threshold is 0 (no division
error for any value), and `((value - threshold) / threshold) * 100`
otherwise. -/
theorem deviation_zero_threshold_safe (a : Alert) :
    (a.threshold = 0 → get_deviation_percentage a = 0)
    ∧ (a.threshold ≠ 0 →
        get_deviation_percentage a = ((a.value - a.threshold) / a.threshold) * 100) := by
  constructor <;> intro h <;> simp [get_deviation_percentage, h]

/-- Witness for C7 at concrete alerts: a zero threshold yields 0 for value 95,
and a nonzero threshold yields the formula. -/
theorem deviation_zero_threshold_safe_witness :
    get_deviation_percentage (mkAlert "a1" "t" "s" "c" "critical" 95 0) = 0
    ∧ get_deviation_percentage (mkAlert "a2" "t" "s" "c" "critical" 95 50)
        = ((95 - 50) / 50) * 100 :=
  ⟨(deviation_zero_threshold_safe (mkAlert "a1" "t" "s" "c" "critical" 95 0)).1 rfl,
   (deviation_zero_threshold_safe (mkAlert "a2" "t" "s" "c" "critical" 95 50)).2
     (by norm_num [mkAlert])⟩

/-- C8: `summarize` on the empty collection returns the `{totalAlerts: 0}`
sentinel with no distributions and no time range, and raises nothing. -/
theorem summary_empty_sentinel (p : String → Option ℚ) :
    get_alert_summary p [] = some ⟨0, none, none, none, none⟩ := rfl

/-- C10: a falsy criterion (`severity=""`, `service=""`, `recencyWindow=0`)
behaves exactly as if that criterion were omitted; in particular
`recencyWindow=0` parses no timestamp. -/
theorem filter_falsy_criteria (p : String → Option ℚ) (now : ℚ) (alerts : List Alert) :
    (∀ serv win, filter_alerts p now alerts (some "") serv win
        = filter_alerts p now alerts none serv win)
    ∧ (∀ sev win, filter_alerts p now alerts sev (some "") win
        = filter_alerts p now alerts sev none win)
    ∧ (∀ sev serv, filter_alerts p now alerts sev serv (some 0)
        = filter_alerts p now alerts sev serv none) := by
  refine ⟨fun serv win => ?_, fun sev win => ?_, fun sev serv => ?_⟩ <;>
    simp [filter_alerts]

/-- C3: with every supplied criterion effective (a nonempty severity or
service string, a nonzero window) and, when a recency window is supplied,
every timestamp parsing, `filter_alerts` returns exactly the sublist of the
input satisfying the conjunction of the supplied criteria (case-insensitive
severity and service match, `parsedTime() ≥ now - window`), preserving the
input's relative order; omitted criteria impose no constraint, and with no
criteria the input comes back unchanged. -/
theorem filter_conjunction (p : String → Option ℚ) (now : ℚ) (alerts : List Alert)
    (sev serv : Option String) (win : Option Int)
    (hsev : sev ≠ some "") (hserv : serv ≠ some "") (hwin : win ≠ some 0)
    (hp : ∀ m : Int, win = some m → ∀ a ∈ alerts, (get_datetime p a).isSome) :
    filter_alerts p now alerts sev serv win
      = some (alerts.filter
          (fun a => sevOK sev a && (servOK serv a && winOK p now win a))) := by
  rcases sev with _ | s1 <;> rcases serv with _ | s2 <;> rcases win with _ | m
  · simp [filter_alerts, sevOK, servOK, winOK]
  · have hm : ¬ m = 0 := fun e => hwin (by rw [e])
    have hpm : ∀ a ∈ alerts, (get_datetime p a).isSome := hp m rfl
    simp [filter_alerts, hm, timePass_eq_filter p (now - (m : ℚ)) alerts hpm,
      sevOK, servOK, winOK]
  · have hs2 : ¬ s2 = "" := fun e => hserv (by rw [e])
    simp [filter_alerts, hs2, sevOK, servOK, winOK]
  · have hs2 : ¬ s2 = "" := fun e => hserv (by rw [e])
    have hm : ¬ m = 0 := fun e => hwin (by rw [e])
    have hpm : ∀ a ∈ alerts.filter (fun a => a.service.toLower == s2.toLower),
        (get_datetime p a).isSome :=
      fun a ha => hp m rfl a (List.mem_of_mem_filter ha)
    simp [filter_alerts, hs2, hm, timePass_eq_filter p (now - (m : ℚ)) _ hpm,
      filter_two, sevOK, servOK, winOK]
    exact List.filter_congr (fun a _ => Bool.and_comm _ _)
  · have hs1 : ¬ s1 = "" := fun e => hsev (by rw [e])
    simp [filter_alerts, hs1, sevOK, servOK, winOK]
  · have hs1 : ¬ s1 = "" := fun e => hsev (by rw [e])
    have hm : ¬ m = 0 := fun e => hwin (by rw [e])
    have hpm : ∀ a ∈ alerts.filter (fun a => a.severity.toLower == s1.toLower),
        (get_datetime p a).isSome :=
      fun a ha => hp m rfl a (List.mem_of_mem_filter ha)
    simp [filter_alerts, hs1, hm, timePass_eq_filter p (now - (m : ℚ)) _ hpm,
      filter_two, sevOK, servOK, winOK]
    exact List.filter_congr (fun a _ => Bool.and_comm _ _)
  · have hs1 : ¬ s1 = "" := fun e => hsev (by rw [e])
    have hs2 : ¬ s2 = "" := fun e => hserv (by rw [e])
    simp [filter_alerts, hs1, hs2, filter_two, sevOK, servOK, winOK]
    exact List.filter_congr (fun a _ => Bool.and_comm _ _)
  · have hs1 : ¬ s1 = "" := fun e => hsev (by rw [e])
    have hs2 : ¬ s2 = "" := fun e => hserv (by rw [e])
    have hm : ¬ m = 0 := fun e => hwin (by rw [e])
    have hpm : ∀ a ∈ alerts.filter
        (fun a => a.service.toLower == s2.toLower && a.severity.toLower == s1.toLower),
        (get_datetime p a).isSome :=
      fun a ha => hp m rfl a (List.mem_of_mem_filter ha)
    simp [filter_alerts, hs1, hs2, hm, sevOK, servOK, winOK]
    rw [timePass_eq_filter p (now - (m : ℚ)) _ hpm, List.filter_filter]
    exact congrArg some (List.filter_congr (fun a _ => by
      cases a.severity.toLower == s1.toLower <;>
        cases a.service.toLower == s2.toLower <;>
        cases timeOKAt p (now - (m : ℚ)) a <;> rfl))

/-- Witness for C3 at concrete inputs: a parser that always succeeds, no
severity or service criterion, and a 1-minute window. -/
theorem filter_conjunction_witness :
    filter_alerts (fun _ => some (0 : ℚ)) 0
        [mkAlert "a1" "t" "svc" "db" "critical" 95 50] none none (some 1)
      = some ([mkAlert "a1" "t" "svc" "db" "critical" 95 50].filter
          (fun a => sevOK none a
            && (servOK none a && winOK (fun _ => some (0 : ℚ)) 0 (some 1) a))) :=
  filter_conjunction (fun _ => some (0 : ℚ)) 0
    [mkAlert "a1" "t" "svc" "db" "critical" 95 50] none none (some 1)
    (by simp) (by simp) (by simp) (fun m _ a _ => rfl)

/-- C6: a timestamp string that the ISO-8601 parser rejects (after the
`Z` → `+00:00` substitution) makes `parsedTime()` fail; `summarize` and
recency filtering propagate that failure to the caller, and neither fails
when every involved timestamp parses. -/
theorem parse_errors_propagate (p : String → Option ℚ) (now : ℚ) (alerts : List Alert)
    (m : Int) (hm : m ≠ 0) :
    (∀ a : Alert, p (String.replace a.timestamp "Z" "+00:00") = none →
        get_datetime p a = none)
    ∧ ((∃ a ∈ alerts, get_datetime p a = none) →
        get_alert_summary p alerts = none
        ∧ filter_alerts p now alerts none none (some m) = none)
    ∧ ((∀ a ∈ alerts, (get_datetime p a).isSome) →
        (get_alert_summary p alerts).isSome
        ∧ (filter_alerts p now alerts none none (some m)).isSome) := by
  refine ⟨fun a h => h, fun h => ⟨?_, ?_⟩, fun h => ⟨?_, ?_⟩⟩
  · have hne : alerts.isEmpty = false := by
      obtain ⟨b, hb, _⟩ := h
      exact List.isEmpty_eq_false.mpr (List.ne_nil_of_mem hb)
    simp [get_alert_summary, hne, parseAll_none p alerts h]
  · simp [filter_alerts, hm, timePass_none p (now - (m : ℚ)) alerts h]
  · by_cases he : alerts.isEmpty
    · simp [get_alert_summary, he]
    · obtain ⟨ts, hts⟩ := Option.isSome_iff_exists.mp (parseAll_isSome p alerts h)
      simp [get_alert_summary, he, hts]
  · simp [filter_alerts, hm, timePass_eq_filter p (now - (m : ℚ)) alerts h]

/-- Witness for C6: with a parser that rejects everything, `summarize` on a
one-alert list fails. -/
theorem parse_errors_propagate_witness :
    get_alert_summary (fun _ => none) [mkAlert "a1" "bad-ts" "svc" "db" "info" 1 1]
      = none :=
  ((parse_errors_propagate (fun _ => none) 0
      [mkAlert "a1" "bad-ts" "svc" "db" "info" 1 1] 1 (by simp)).2.1
    ⟨mkAlert "a1" "bad-ts" "svc" "db" "info" 1 1,
      List.mem_singleton_self _, rfl⟩).1

/-- C9: the incident priority score is invariant under permutation of its
input. -/
theorem score_order_invariant (l1 l2 : List Alert) (h : l1.Perm l2) :
    calculate_incident_priority l1 = calculate_incident_priority l2 := by
  by_cases he : l1 = []
  · subst he
    rw [h.symm.eq_nil]
  · have he2 : l2 ≠ [] := fun e => he (by subst e; exact h.eq_nil)
    have hb1 : l1.isEmpty = false := List.isEmpty_eq_false.mpr he
    have hb2 : l2.isEmpty = false := List.isEmpty_eq_false.mpr he2
    have hd1 : (l1.map (fun a => |get_deviation_percentage a|)).isEmpty = false :=
      List.isEmpty_eq_false.mpr (by simp [he])
    have hd2 : (l2.map (fun a => |get_deviation_percentage a|)).isEmpty = false :=
      List.isEmpty_eq_false.mpr (by simp [he2])
    simp only [calculate_incident_priority, hb1, hb2, Bool.false_eq_true, if_false,
      hd1, hd2, foldl_add_eq_sum, Nat.zero_add, List.length_map]
    rw [(h.map severityWeightOf).sum_eq,
      (h.map (fun a => |get_deviation_percentage a|)).sum_eq,
      h.length_eq, ((h.map Alert.akey).dedup).length_eq]

/-- Witness for C9: swapping two concrete alerts leaves the score unchanged. -/
theorem score_order_invariant_witness :
    calculate_incident_priority
        [mkAlert "a1" "t" "s1" "c1" "critical" 95 50,
         mkAlert "a2" "t" "s2" "c2" "info" 10 10]
      = calculate_incident_priority
        [mkAlert "a2" "t" "s2" "c2" "info" 10 10,
         mkAlert "a1" "t" "s1" "c1" "critical" 95 50] :=
  score_order_invariant _ _
    (List.Perm.swap (mkAlert "a2" "t" "s2" "c2" "info" 10 10)
      (mkAlert "a1" "t" "s1" "c1" "critical" 95 50) [])

/-- C2: after grouping, every input alert lies in the (unique) group carrying
its `(service, component)` key, every alert listed in a group has that
group's key, group keys are pairwise distinct, and the group totals sum to
the input length. -/
theorem group_partitions_input (alerts : List Alert) :
    (∀ a ∈ alerts, ∃ g ∈ group_alerts alerts,
        g.service = a.service ∧ g.component = a.component ∧ a ∈ g.alerts)
    ∧ (∀ g ∈ group_alerts alerts, ∀ a ∈ g.alerts, (g.service, g.component) = a.akey)
    ∧ ((group_alerts alerts).map (fun g => (g.service, g.component))).Nodup
    ∧ ((group_alerts alerts).map AlertGroup.total_alerts).sum = alerts.length := by
  refine ⟨?_, ?_, ?_, ?_⟩
  · intro a ha
    refine ⟨groupFor alerts a.akey, ?_, rfl, rfl, ?_⟩
    · rw [group_alerts_closed]
      exact List.mem_map_of_mem _
        ((mem_dedupFirst _ _).mpr (List.mem_map_of_mem Alert.akey ha))
    · show a ∈ alerts.filter (fun x => x.akey == a.akey)
      exact List.mem_filter.mpr ⟨ha, beq_iff_eq.mpr rfl⟩
  · intro g hg a hag
    rw [group_alerts_closed] at hg
    obtain ⟨k, hk, rfl⟩ := List.mem_map.mp hg
    have hmem : a ∈ alerts.filter (fun x => x.akey == k) := hag
    have hk2 : a.akey = k := beq_iff_eq.mp (List.mem_filter.mp hmem).2
    show (k.1, k.2) = a.akey
    rw [hk2]
  · rw [group_alerts_keys]
    exact nodup_dedupFirst _
  · rw [group_alerts_closed, List.map_map]
    have hco : (AlertGroup.total_alerts ∘ groupFor alerts)
        = fun k => (alerts.filter (fun a => a.akey == k)).length := rfl
    rw [hco]
    exact sum_counts _ _ (nodup_dedupFirst _)
      (fun a ha => (mem_dedupFirst _ _).mpr (List.mem_map_of_mem Alert.akey ha))

/-- Witness for C2: on a concrete one-alert list, the alert lands in a group
carrying its key. -/
theorem group_partitions_input_witness :
    ∃ g ∈ group_alerts [mkAlert "a1" "t" "pay" "db" "critical" 95 50],
      g.service = (mkAlert "a1" "t" "pay" "db" "critical" 95 50).service
      ∧ g.component = (mkAlert "a1" "t" "pay" "db" "critical" 95 50).component
      ∧ mkAlert "a1" "t" "pay" "db" "critical" 95 50 ∈ g.alerts :=
  (group_partitions_input [mkAlert "a1" "t" "pay" "db" "critical" 95 50]).1
    (mkAlert "a1" "t" "pay" "db" "critical" 95 50) (List.mem_singleton_self _)

/-- C4: the groups come out in first-appearance order of the distinct
`(service, component)` keys, and grouping is deterministic on a fixed
input. -/
theorem group_order_first_appearance (alerts : List Alert) :
    (group_alerts alerts).map (fun g => (g.service, g.component))
        = dedupFirst (alerts.map (fun a => (a.service, a.component)))
    ∧ group_alerts alerts = group_alerts alerts :=
  ⟨group_alerts_keys alerts, rfl⟩

/-- C5: `add_alert` preserves the bookkeeping invariant, and every group
produced by `group_alerts` satisfies it: `totalAlerts` is the length of the
alert list, the severity tallies (keyed by raw severity string) sum to
`totalAlerts`, and each raw severity string is tallied exactly as often as
it occurs in the group. -/
theorem group_counts_consistent :
    (∀ (g : AlertGroup) (a : Alert), countsInv g → countsInv (add_alert g a))
    ∧ ∀ (alerts : List Alert), ∀ g ∈ group_alerts alerts, countsInv g := by
  refine ⟨countsInv_add_alert, ?_⟩
  intro alerts g hg
  rw [group_alerts_closed] at hg
  obtain ⟨k, hk, rfl⟩ := List.mem_map.mp hg
  exact countsInv_groupFor alerts k

/-- Witness for C5: adding a concrete alert to a concrete invariant-satisfying
(empty) group preserves the invariant. -/
theorem group_counts_consistent_witness :
    countsInv (add_alert ⟨"svc", "db", [], [], 0⟩
      (mkAlert "a1" "t" "svc" "db" "critical" 95 50)) :=
  group_counts_consistent.1 ⟨"svc", "db", [], [], 0⟩
    (mkAlert "a1" "t" "svc" "db" "critical" 95 50) (by simp [countsInv, lookupD])

/-- C1: the incident priority is 0 on an empty list and otherwise equals
`0.5*severityScore + 0.3*avgDeviation + 0.2*affectedComponents`, where the
severity score sums catalog weights under case-sensitive label match (0 for
unmatched severities), the average deviation is the mean absolute
`deviationPercent()`, and `affectedComponents` counts distinct
`(service, component)` pairs. -/
theorem priority_matches_formula (alerts : List Alert) :
    calculate_incident_priority alerts = scoreSpec alerts := by
  unfold calculate_incident_priority scoreSpec severityScoreSpec avgDeviationSpec
    affectedComponentsSpec
  by_cases h : alerts.isEmpty
  · simp [h]
  · have h' : alerts.isEmpty = false := by simpa using h
    have hne : (alerts.map (fun a => |get_deviation_percentage a|)).isEmpty = false := by
      cases alerts with
      | nil => simp at h'
      | cons a t => simp
    have hm : alerts.map severityWeightOf = alerts.map (fun a => weightOfLabel a.severity) :=
      List.map_congr_left (fun a _ => severityWeightOf_eq a)
    simp only [h', Bool.false_eq_true, if_false, foldl_add_eq_sum, Nat.zero_add, hne,
      hm, List.length_map]
    ring

end AlertSystem
